import Mathlib

/-!
Verification development for the sampling-assignment optimizer
(`optimizer.py`, `data_loader.py`).

The Python core is shallowly embedded:

* `Person` / `TaskDef` mirror the rows produced by `load_person_data` /
  `load_task_database` (column names kept).
* Pure functions (`calculate_match_score`, `is_person_available`,
  `get_priority_penalty`, `match_task_to_database`,
  `get_schedule_by_date`) are translated directly.
* The PuLP solver is an external collaborator; it is modelled as a
  parameter `solver : DayModel → SolverStatus × Solution`.  The model built
  by `optimize_day` (variables, the three constraint families, objective)
  is embedded by `DayModel`, `feasible` and `objective`; the result
  extraction loop is embedded by `extract`.
* Python `dict`s (insertion ordered, first occurrence wins for keys) are
  embedded as association lists with unique keys; `initDict`, `updAppend`
  and `groupFold` mirror the dict-building loops of the source.
* Date strings `YYYY-MM-DD` are parsed by `parseDate` and
  `datetime.weekday()` (Monday = 0) is embedded as `pyWeekday` over the
  proleptic Gregorian calendar.
-/

/-- A worker row (`load_person_data`): columns name, priority, skill,
trouble, personality, strength, ship, driving, navigation, notes. -/
structure Person where
  name : String
  priority : Int
  skill : Int
  trouble : Int
  personality : Int
  strength : Int
  ship : Int
  driving : Int
  navigation : Int
  notes : String
deriving DecidableEq, Repr

/-- A task row (`load_task_database`), plus the `is_unregistered` flag that
`match_task_to_database` puts on its synthesized default (registry rows
carry `false`, i.e. the key is absent / falsy in the Python dict). -/
structure TaskDef where
  task_id : Int
  task_name : String
  area : String
  required_workers : Nat
  required_skill : Int
  required_strength : Int
  urgency : Int
  ship_work : Int
  navigation_required : Int
  duration : Rat
  is_unregistered : Bool
deriving DecidableEq, Repr

/-- Python's substring test `pin in hay` starting at the head of `hay`. -/
def chPre : List Char → List Char → Bool
  | [], _ => true
  | _ :: _, [] => false
  | a :: as, b :: bs => a == b && chPre as bs

/-- Python's substring test `pin in hay` on code-point lists. -/
def chSub (pin : List Char) : List Char → Bool
  | [] => pin.isEmpty
  | c :: cs => chPre pin (c :: cs) || chSub pin cs

/-- Python's `sub in hay` on strings. -/
def strIn (sub hay : String) : Bool := chSub sub.data hay.data

/-- Python's `str.strip()` on code-point lists (whitespace from both
ends). -/
def chTrim (l : List Char) : List Char :=
  ((l.dropWhile Char.isWhitespace).reverse.dropWhile Char.isWhitespace).reverse

/-- Python's `str.strip()`. -/
def strTrim (s : String) : String := ⟨chTrim s.data⟩

/-- Split a code-point list on the `-` separator (the happy path of
`datetime.strptime(date_str, "%Y-%m-%d")` needs only this). -/
def splitDash (acc : List Char) : List Char → List (List Char)
  | [] => [acc.reverse]
  | c :: cs => if c = '-' then acc.reverse :: splitDash [] cs else splitDash (c :: acc) cs

/-- Decimal digits to a number (`int(...)` on the date components). -/
def digitsToNat (l : List Char) : Nat :=
  l.foldl (fun n c => n * 10 + (c.toNat - '0'.toNat)) 0

/-- `SamplingOptimizer.calculate_match_score` (optimizer.py lines 25-62),
translated statement by statement; all quantities involved are integers,
so the Python float is embedded as `Int`. -/
def calculate_match_score (person : Person) (task : TaskDef) : Int :=
  let score : Int := 0
  let skill_diff : Int := person.skill - task.required_skill
  let score := if skill_diff ≥ 0 then score + (30 + skill_diff * 5)
    else score - |skill_diff| * 20
  let strength_diff : Int := person.strength - task.required_strength
  let score := if strength_diff ≥ 0 then score + (20 + strength_diff * 3)
    else score - |strength_diff| * 15
  let score := if task.ship_work ≥ 3 then
      let ship_diff : Int := person.ship - task.ship_work
      if ship_diff ≥ 0 then score + (15 + ship_diff * 2)
      else score - |ship_diff| * 10
    else score
  let score := if task.navigation_required ≥ 3 then
      let nav_ability := person.navigation
      if nav_ability > 0 then score + (10 + nav_ability * 2)
      else score - 30
    else score
  score

/-- `SamplingOptimizer.get_priority_penalty` (optimizer.py lines 83-91). -/
def get_priority_penalty (person : Person) : Int :=
  if strIn "分析優先" person.notes then -20 else 0

/-- Leap year of the proleptic Gregorian calendar
(as used by Python `datetime`). -/
def isLeapYear (y : Nat) : Bool :=
  y % 4 == 0 && (y % 100 != 0 || y % 400 == 0)

/-- Days before the first of month `m` in a non-leap year. -/
def daysBeforeMonth (m : Nat) : Nat :=
  [0, 31, 59, 90, 120, 151, 181, 212, 243, 273, 304, 334].getD (m - 1) 0

/-- `datetime.date(y, m, d).toordinal()`: day number with 0001-01-01 = 1. -/
def toOrdinal (y m d : Nat) : Nat :=
  365 * (y - 1) + (y - 1) / 4 - (y - 1) / 100 + (y - 1) / 400
    + daysBeforeMonth m + (if isLeapYear y && m > 2 then 1 else 0) + d

/-- Parse a `YYYY-MM-DD` string (the happy path of
`datetime.strptime(date_str, "%Y-%m-%d")`). -/
def parseDate (s : String) : Nat × Nat × Nat :=
  match splitDash [] s.data with
  | [y, m, d] => (digitsToNat y, digitsToNat m, digitsToNat d)
  | _ => (0, 0, 0)

/-- Python's `datetime.weekday()`: Monday = 0, ..., Sunday = 6. -/
def pyWeekday (date_str : String) : Nat :=
  let ymd := parseDate date_str
  (toOrdinal ymd.1 ymd.2.1 ymd.2.2 + 6) % 7

/-- `SamplingOptimizer.is_person_available` (optimizer.py lines 64-81):
a worker whose notes contain the only-Monday-and-Tuesday marker is
available exactly on weekdays 0 and 1; everyone else is always
available. -/
def is_person_available (person : Person) (date_str : String) : Bool :=
  if strIn "月火のみ" person.notes then
    pyWeekday date_str == 0 || pyWeekday date_str == 1
  else true

/-- The default dictionary that `match_task_to_database` returns for an
unregistered task (data_loader.py lines 147-160). -/
def defaultUnregisteredTask (clean : String) : TaskDef :=
  { task_id := 0
    task_name := clean
    area := "不明"
    required_workers := 1
    required_skill := 3
    required_strength := 3
    urgency := 3
    ship_work := 1
    navigation_required := 1
    duration := 1
    is_unregistered := true }

/-- `match_task_to_database` (data_loader.py lines 129-160): strip the
schedule name, try an exact registry-name match, then the first row whose
stripped name is a substring of the cleaned name or vice versa, else the
synthesized default. -/
def match_task_to_database (task_name : String) (database : List TaskDef) : TaskDef :=
  match database.find? (fun row => row.task_name == strTrim task_name) with
  | some row => row
  | none =>
    match database.find? (fun row =>
        strIn (strTrim row.task_name) (strTrim task_name)
          || strIn (strTrim task_name) (strTrim row.task_name)) with
    | some row => row
    | none => defaultUnregisteredTask (strTrim task_name)

/-- Skill term of the score as the specification words it. -/
def scoreSpecSkill (w : Person) (t : TaskDef) : Int :=
  let d := w.skill - t.required_skill
  if d ≥ 0 then 30 + 5 * d else -(20 * |d|)

/-- Strength term of the score as the specification words it. -/
def scoreSpecStrength (w : Person) (t : TaskDef) : Int :=
  let d := w.strength - t.required_strength
  if d ≥ 0 then 20 + 3 * d else -(15 * |d|)

/-- Vessel-work term of the score as the specification words it: active
only when the task's vessel-work grade is at least 3. -/
def scoreSpecVessel (w : Person) (t : TaskDef) : Int :=
  if t.ship_work ≥ 3 then
    let d := w.ship - t.ship_work
    if d ≥ 0 then 15 + 2 * d else -(10 * |d|)
  else 0

/-- Navigation term of the score as the specification words it: active
only when the task's navigation grade is at least 3. -/
def scoreSpecNav (w : Person) (t : TaskDef) : Int :=
  if t.navigation_required ≥ 3 then
    if w.navigation > 0 then 10 + 2 * w.navigation else -30
  else 0

/-- Worker `W1` of the specification's scenario. -/
def workerW1 : Person :=
  { name := "W1", priority := 1, skill := 5, trouble := 1, personality := 3
    strength := 5, ship := 1, driving := 1, navigation := 1, notes := "" }

/-- TaskDef `T1` of the specification's scenario. -/
def taskT1 : TaskDef :=
  { task_id := 1, task_name := "T1", area := "A", required_workers := 1
    required_skill := 3, required_strength := 3, urgency := 3
    ship_work := 1, navigation_required := 1, duration := 1
    is_unregistered := false }

/-- C2: the score is exactly the sum of the four specified terms, and on
the scenario worker (skill 5, strength 5) and task (requirements 3/3,
vessel and navigation grades 1, below threshold) it equals 66. -/
theorem spec_C2 :
    (∀ (w : Person) (t : TaskDef),
      calculate_match_score w t =
        scoreSpecSkill w t + scoreSpecStrength w t
          + scoreSpecVessel w t + scoreSpecNav w t)
    ∧ calculate_match_score workerW1 taskT1 = 66 := by
  constructor
  · intro w t
    simp only [calculate_match_score, scoreSpecSkill, scoreSpecStrength,
      scoreSpecVessel, scoreSpecNav]
    split_ifs <;> ring
  · decide

/-- The PuLP solve statuses (`LpStatusOptimal` etc.); `optimize_day` only
distinguishes `optimal` from the rest. -/
inductive SolverStatus where
  | optimal
  | notSolved
  | infeasible
  | unbounded
  | undefined
deriving DecidableEq, Repr

/-- A total valuation of the binary decision variables: `x p t` is
`x[p_idx, t_idx]`, `y p a` is `y[p_idx, area]`. -/
structure Solution where
  x : Nat → Nat → Bool
  y : Nat → String → Bool

/-- A resolved task dict with the schedule's original display name
attached (`task_info['original_name'] = task_name`, optimizer.py 104-109). -/
structure ResolvedTask where
  info : TaskDef
  original_name : String
deriving DecidableEq, Repr

/-- Resolution loop of `optimize_day` (optimizer.py lines 105-109). -/
def resolveTasks (task_list : List String) (db : List TaskDef) : List ResolvedTask :=
  task_list.map (fun n => { info := match_task_to_database n db, original_name := n })

/-- Availability filter of `optimize_day` (optimizer.py lines 112-115). -/
def availablePersons (persons : List Person) (date_str : String) : List Person :=
  persons.filter (fun p => is_person_available p date_str)

/-- Python `d[k].append(v)` on an association list. -/
def updAppend {β : Type} (d : List (String × List β)) (k : String) (v : β) :
    List (String × List β) :=
  d.map (fun kv => if kv.1 == k then (kv.1, kv.2 ++ [v]) else kv)

/-- Python grouping loop `if k not in d: d[k] = []` followed by
`d[k].append(v)`, over a list of key-value pairs. -/
def groupFold {β : Type} (l : List (String × β)) : List (String × List β) :=
  l.foldl (fun d e =>
    if d.any (fun kv => kv.1 == e.1) then updAppend d e.1 e.2
    else d ++ [(e.1, [e.2])]) []

/-- `get_schedule_by_date` (data_loader.py lines 113-126): group the
schedule rows `(date_str, task_name)` by date, in first-occurrence
order. -/
def get_schedule_by_date (rows : List (String × String)) : List (String × List String) :=
  groupFold rows

/-- Area grouping of `optimize_day` (optimizer.py lines 120-126): task
indices grouped by the task's area, in first-occurrence order. -/
def groupAreas (tasks : List ResolvedTask) : List (String × List Nat) :=
  groupFold (tasks.enum.map (fun tt => (tt.2.info.area, tt.1)))

/-- Python `{name: [] for name in names}` (duplicate names collapse into
one key). -/
def initDict (names : List String) : List (String × List String) :=
  names.foldl (fun d n =>
    if d.any (fun kv => kv.1 == n) then d else d ++ [(n, [])]) []

/-- The per-day optimization model that `optimize_day` hands to the
solver: the eligible workers, the resolved task slots and the area
grouping (these three data determine the variables, constraints and
objective of the LP built in optimizer.py lines 128-173). -/
structure DayModel where
  persons : List Person
  tasks : List ResolvedTask
  areaTasks : List (String × List Nat)

/-- The model `optimize_day` builds for one date. -/
def dayModel (persons : List Person) (db : List TaskDef) (date_str : String)
    (task_list : List String) : DayModel :=
  { persons := availablePersons persons date_str
    tasks := resolveTasks task_list db
    areaTasks := groupAreas (resolveTasks task_list db) }

/-- The three constraint families of the LP (optimizer.py lines 160-173):
one area per worker, task-area linking, and per-slot capacity. -/
def feasible (m : DayModel) (s : Solution) : Prop :=
  (∀ p < m.persons.length,
    (m.areaTasks.map (fun kv => if s.y p kv.1 then (1 : Nat) else 0)).sum ≤ 1)
  ∧ (∀ p < m.persons.length, ∀ kv ∈ m.areaTasks, ∀ t ∈ kv.2,
      (if s.x p t then (1 : Nat) else 0) ≤ (if s.y p kv.1 then 1 else 0))
  ∧ (∀ tt ∈ m.tasks.enum,
      ((List.range m.persons.length).map
        (fun p => if s.x p tt.1 then (1 : Nat) else 0)).sum
        ≤ tt.2.info.required_workers)

instance (m : DayModel) (s : Solution) : Decidable (feasible m s) := by
  unfold feasible
  infer_instance

/-- Objective coefficient of `x[p,t]` (optimizer.py lines 150-156): match
score plus priority penalty. -/
def objectiveCoeff (p : Person) (t : TaskDef) : Int :=
  calculate_match_score p t + get_priority_penalty p

/-- The LP objective value of a valuation (optimizer.py line 158). -/
def objective (m : DayModel) (s : Solution) : Int :=
  (m.persons.enum.map (fun pp =>
    (m.tasks.enum.map (fun tt =>
      if s.x pp.1 tt.1 then objectiveCoeff pp.2 tt.2.info else 0)).sum)).sum

/-- Result extraction of `optimize_day` (optimizer.py lines 178-187):
initialize every display name to an empty list; only on `optimal` status,
append each worker name to each task whose variable is set, workers in
iteration order. -/
def extract (m : DayModel) (status : SolverStatus) (s : Solution) :
    List (String × List String) :=
  let base := initDict (m.tasks.map ResolvedTask.original_name)
  if status = SolverStatus.optimal then
    m.persons.enum.foldl (fun d pp =>
      m.tasks.enum.foldl (fun d2 tt =>
        if s.x pp.1 tt.1 then updAppend d2 tt.2.original_name pp.2.name else d2) d) base
  else base

/-- `SamplingOptimizer.optimize_day` (optimizer.py lines 93-187), with the
external PuLP solver as a parameter returning a status and a valuation of
the variables of the model it is given. -/
def optimize_day (persons : List Person) (db : List TaskDef) (date_str : String)
    (task_list : List String) (solver : DayModel → SolverStatus × Solution) :
    List (String × List String) :=
  let m := dayModel persons db date_str task_list
  if m.persons.isEmpty then initDict (m.tasks.map ResolvedTask.original_name)
  else extract m (solver m).1 (solver m).2

/-- `SamplingOptimizer.optimize_schedule` (optimizer.py lines 189-203). -/
def optimize_schedule (persons : List Person) (db : List TaskDef)
    (rows : List (String × String)) (solver : DayModel → SolverStatus × Solution) :
    List (String × List (String × List String)) :=
  (get_schedule_by_date rows).map
    (fun kv => (kv.1, optimize_day persons db kv.1 kv.2 solver))

/-- The worker list a result holds under a display name (`result[name]`). -/
def resultValue (result : List (String × List String)) (n : String) : List String :=
  (List.lookup n result).getD []

/-! ### Association-list lemmas -/

theorem lookup_updAppend {β : Type} (d : List (String × List β)) (k : String) (v : β)
    (n : String) :
    List.lookup n (updAppend d k v)
      = if n = k then (List.lookup n d).map (fun l => l ++ [v]) else List.lookup n d := by
  induction d with
  | nil => simp [updAppend]
  | cons kv d ih =>
    obtain ⟨k1, l1⟩ := kv
    by_cases hk : k1 = k
    · subst hk
      by_cases hn : n = k1
      · subst hn
        simp [updAppend, List.lookup_cons, beq_self_eq_true]
      · have hb : (n == k1) = false := beq_eq_false_iff_ne.2 hn
        simp only [updAppend, List.map_cons, beq_self_eq_true, if_pos, List.lookup_cons, hb] at ih ⊢
        simpa [hn] using ih
    · have hb : (k1 == k) = false := beq_eq_false_iff_ne.2 hk
      by_cases hn : n = k1
      · subst hn
        simp [updAppend, List.lookup_cons, hb, beq_self_eq_true, hk]
      · have hb2 : (n == k1) = false := beq_eq_false_iff_ne.2 hn
        simp only [updAppend, List.map_cons, hb, if_neg, Bool.false_eq_true,
          not_false_iff, List.lookup_cons, hb2] at ih ⊢
        exact ih

theorem lookup_append {β : Type} (d d' : List (String × β)) (n : String) :
    List.lookup n (d ++ d')
      = match List.lookup n d with
        | some v => some v
        | none => List.lookup n d' := by
  induction d with
  | nil => simp
  | cons kv d ih =>
    obtain ⟨k1, l1⟩ := kv
    by_cases hn : n = k1
    · subst hn
      simp [List.lookup_cons, beq_self_eq_true]
    · have hb : (n == k1) = false := beq_eq_false_iff_ne.2 hn
      simp [List.lookup_cons, hb, ih]

theorem any_key_eq_lookup_isSome {β : Type} (d : List (String × β)) (n : String) :
    d.any (fun kv => kv.1 == n) = (List.lookup n d).isSome := by
  induction d with
  | nil => simp
  | cons kv d ih =>
    obtain ⟨k1, l1⟩ := kv
    by_cases hn : n = k1
    · subst hn
      simp [List.lookup_cons, beq_self_eq_true]
    · have hb : (n == k1) = false := beq_eq_false_iff_ne.2 hn
      have hb2 : (k1 == n) = false := beq_eq_false_iff_ne.2 (fun h => hn h.symm)
      simp [List.lookup_cons, hb, hb2, ih]

theorem mem_keys_iff_lookup_isSome {β : Type} (d : List (String × β)) (n : String) :
    n ∈ d.map Prod.fst ↔ (List.lookup n d).isSome := by
  induction d with
  | nil => simp
  | cons kv d ih =>
    obtain ⟨k1, l1⟩ := kv
    by_cases hn : n = k1
    · subst hn
      simp [List.lookup_cons, beq_self_eq_true]
    · have hb : (n == k1) = false := beq_eq_false_iff_ne.2 hn
      simp only [List.map_cons, List.mem_cons, List.lookup_cons, hb]
      constructor
      · rintro (h | h)
        · exact absurd h hn
        · exact ih.1 h
      · intro h
        exact Or.inr (ih.2 h)

theorem lookup_mem {β : Type} (d : List (String × β)) (k : String) (v : β)
    (h : List.lookup k d = some v) : (k, v) ∈ d := by
  induction d with
  | nil => simp at h
  | cons kv d ih =>
    obtain ⟨k1, l1⟩ := kv
    by_cases hn : k = k1
    · subst hn
      simp [List.lookup_cons, beq_self_eq_true] at h
      simp [h]
    · have hb : (k == k1) = false := beq_eq_false_iff_ne.2 hn
      simp only [List.lookup_cons, hb] at h
      exact List.mem_cons_of_mem _ (ih h)

theorem lookup_initDict (names : List String) (n : String) :
    List.lookup n (initDict names) = if n ∈ names then some [] else none := by
  induction names using List.reverseRecOn generalizing n with
  | nil => simp [initDict]
  | append_singleton names nm ih =>
    have hstep : initDict (names ++ [nm])
        = if (initDict names).any (fun kv => kv.1 == nm) then initDict names
          else initDict names ++ [(nm, [])] := by
      simp [initDict, List.foldl_append]
    by_cases hmem : nm ∈ names
    · have hsome : (List.lookup nm (initDict names)).isSome := by
        rw [ih nm]; simp [hmem]
      rw [hstep, any_key_eq_lookup_isSome, if_pos hsome, ih n]
      by_cases hn : n = nm
      · subst hn
        simp [hmem]
      · simp [List.mem_append, hn]
    · have hnone : List.lookup nm (initDict names) = none := by
        rw [ih nm]; simp [hmem]
      rw [hstep, any_key_eq_lookup_isSome, hnone]
      simp only [Option.isSome_none, Bool.false_eq_true, if_false]
      rw [lookup_append, ih n]
      by_cases hn : n = nm
      · subst hn
        simp [hmem, List.lookup_cons, beq_self_eq_true]
      · have hb : (n == nm) = false := beq_eq_false_iff_ne.2 hn
        by_cases hn2 : n ∈ names <;> simp [hn2, hn, List.lookup_cons, hb]

theorem initDict_values (names : List String) : ∀ kv ∈ initDict names, kv.2 = [] := by
  induction names using List.reverseRecOn with
  | nil => simp [initDict]
  | append_singleton names nm ih =>
    have hstep : initDict (names ++ [nm])
        = if (initDict names).any (fun kv => kv.1 == nm) then initDict names
          else initDict names ++ [(nm, [])] := by
      simp [initDict, List.foldl_append]
    rw [hstep]
    split
    · exact ih
    · intro kv hkv
      rcases List.mem_append.1 hkv with h | h
      · exact ih kv h
      · simp at h
        simp [h]

theorem foldl_flatMap {α β γ : Type} (l : List α) (g : α → List β) (f : γ → β → γ)
    (init : γ) :
    (l.flatMap g).foldl f init = l.foldl (fun acc a => (g a).foldl f acc) init := by
  induction l generalizing init with
  | nil => simp
  | cons a l ih => simp [List.flatMap_cons, List.foldl_append, ih]

theorem filterMap_flatMap {α β γ : Type} (l : List α) (g : α → List β) (f : β → Option γ) :
    (l.flatMap g).filterMap f = l.flatMap (fun a => (g a).filterMap f) := by
  induction l with
  | nil => simp
  | cons a l ih => simp [List.flatMap_cons, List.filterMap_append, ih]

theorem lookup_foldl_condAppend {β ε : Type} (L : List ε) (cond : ε → Bool)
    (key : ε → String) (val : ε → β) (d0 : List (String × List β)) (n : String) :
    List.lookup n (L.foldl (fun d e => if cond e then updAppend d (key e) (val e) else d) d0)
      = (List.lookup n d0).map (fun l =>
          l ++ L.filterMap (fun e =>
            if cond e && (key e == n) then some (val e) else none)) := by
  induction L using List.reverseRecOn with
  | nil =>
    cases h : List.lookup n d0 <;> simp [h]
  | append_singleton L e ih =>
    rw [List.foldl_append, List.foldl_cons, List.foldl_nil]
    by_cases hc : cond e
    · rw [if_pos hc, lookup_updAppend, ih]
      by_cases hk : n = key e
      · have hb : (key e == n) = true := beq_iff_eq.2 hk.symm
        rw [if_pos hk]
        cases h : List.lookup n d0 <;>
          simp [h, List.filterMap_append, List.filterMap_cons, hc, hb, hk,
            List.append_assoc]
      · have hk2 : ¬key e = n := fun hx => hk hx.symm
        have hb : (key e == n) = false := beq_eq_false_iff_ne.2 hk2
        rw [if_neg hk]
        cases h : List.lookup n d0 <;>
          simp [h, List.filterMap_append, List.filterMap_cons, hc, hb, hk2]
    · rw [if_neg hc, ih]
      have hcb : cond e = false := by simpa using hc
      cases h : List.lookup n d0 <;>
        simp [h, List.filterMap_append, List.filterMap_cons, hcb]

/-- The values of the entries of `l` that carry key `k`, in order. -/
def valsOf {β : Type} (l : List (String × β)) (k : String) : List β :=
  l.filterMap (fun e => if e.1 == k then some e.2 else none)

theorem lookup_groupFold {β : Type} (l : List (String × β)) (k : String) :
    List.lookup k (groupFold l)
      = if (valsOf l k).isEmpty then none else some (valsOf l k) := by
  induction l using List.reverseRecOn generalizing k with
  | nil => simp [groupFold, valsOf]
  | append_singleton l e ih =>
    have hstep : groupFold (l ++ [e])
        = if (groupFold l).any (fun kv => kv.1 == e.1) then
            updAppend (groupFold l) e.1 e.2
          else groupFold l ++ [(e.1, [e.2])] := by
      simp [groupFold, List.foldl_append]
    rw [hstep]
    by_cases hek : e.1 = k
    · have hvals : valsOf (l ++ [e]) k = valsOf l k ++ [e.2] := by
        simp [valsOf, List.filterMap_append, List.filterMap_cons, hek]
      rw [any_key_eq_lookup_isSome, hek, ih k, hvals]
      by_cases hv : (valsOf l k).isEmpty
      · rw [List.isEmpty_iff] at hv
        simp only [hv, List.isEmpty_nil, if_true, Option.isSome_none,
          Bool.false_eq_true, if_false]
        rw [lookup_append, ih k]
        simp [hv, List.lookup_cons, beq_self_eq_true]
      · have hvb : (valsOf l k).isEmpty = false := by simpa using hv
        simp only [hvb, Bool.false_eq_true, if_false, Option.isSome_some, if_true]
        rw [lookup_updAppend, if_pos rfl, ih k]
        simp [hvb]
    · have hb : (e.1 == k) = false := beq_eq_false_iff_ne.2 hek
      have hvals : valsOf (l ++ [e]) k = valsOf l k := by
        simp [valsOf, List.filterMap_append, List.filterMap_cons, hb, hek]
      rw [hvals]
      by_cases hany : (groupFold l).any (fun kv => kv.1 == e.1)
      · rw [if_pos hany, lookup_updAppend, if_neg (fun h => hek h.symm), ih k]
      · rw [if_neg hany, lookup_append, ih k]
        have hb2 : (k == e.1) = false := beq_eq_false_iff_ne.2 (fun h => hek h.symm)
        by_cases hv : (valsOf l k).isEmpty <;>
          simp [hv, List.lookup_cons, hb2]

theorem mem_map_sum_le {β : Type} (d : List β) (f : β → Nat) (e : β) (h : e ∈ d) :
    f e ≤ (d.map f).sum := by
  induction d with
  | nil => simp at h
  | cons a d ih =>
    rcases List.mem_cons.1 h with rfl | h'
    · simp only [List.map_cons, List.sum_cons]
      exact Nat.le_add_right _ _
    · simp only [List.map_cons, List.sum_cons]
      exact (ih h').trans (Nat.le_add_left _ _)

theorem two_mem_map_sum_le {β : Type} (d : List β) (f : β → Nat) (e1 e2 : β)
    (h1 : e1 ∈ d) (h2 : e2 ∈ d) (hne : e1 ≠ e2) :
    f e1 + f e2 ≤ (d.map f).sum := by
  induction d with
  | nil => simp at h1
  | cons a d ih =>
    rcases List.mem_cons.1 h1 with rfl | h1'
    · rcases List.mem_cons.1 h2 with rfl | h2'
      · exact absurd rfl hne
      · simp only [List.map_cons, List.sum_cons]
        exact Nat.add_le_add_left (mem_map_sum_le d f e2 h2') _
    · rcases List.mem_cons.1 h2 with rfl | h2'
      · simp only [List.map_cons, List.sum_cons]
        calc f e1 + f e2 = f e2 + f e1 := Nat.add_comm _ _
          _ ≤ f e2 + (d.map f).sum :=
            Nat.add_le_add_left (mem_map_sum_le d f e1 h1') _
      · simp only [List.map_cons, List.sum_cons]
        exact (ih h1' h2').trans (Nat.le_add_left _ _)

theorem groupAreas_covers (tasks : List ResolvedTask) (tt : Nat × ResolvedTask)
    (h : tt ∈ tasks.enum) :
    ∃ l, (tt.2.info.area, l) ∈ groupAreas tasks ∧ tt.1 ∈ l := by
  have hmem : (tt.2.info.area, tt.1)
      ∈ tasks.enum.map (fun tt => (tt.2.info.area, tt.1)) :=
    List.mem_map.2 ⟨tt, h, rfl⟩
  have hv : tt.1 ∈ valsOf (tasks.enum.map (fun tt => (tt.2.info.area, tt.1)))
      tt.2.info.area :=
    List.mem_filterMap.2 ⟨(tt.2.info.area, tt.1), hmem, by simp⟩
  have hne : (valsOf (tasks.enum.map (fun tt => (tt.2.info.area, tt.1)))
      tt.2.info.area).isEmpty = false := by
    cases hx : valsOf (tasks.enum.map (fun tt => (tt.2.info.area, tt.1)))
        tt.2.info.area with
    | nil => rw [hx] at hv; simp at hv
    | cons a t => simp [hx]
  have hl := lookup_groupFold (tasks.enum.map (fun tt => (tt.2.info.area, tt.1)))
    tt.2.info.area
  rw [hne] at hl
  simp only [Bool.false_eq_true, if_false] at hl
  exact ⟨_, lookup_mem _ _ _ hl, hv⟩

/-- Worker names appended under display name `n` by the extraction loop:
person-major order over all pairs whose variable is set and whose slot
carries that display name. -/
def assignedNames (m : DayModel) (s : Solution) (n : String) : List String :=
  m.persons.enum.flatMap (fun pp =>
    m.tasks.enum.filterMap (fun tt =>
      if s.x pp.1 tt.1 && (tt.2.original_name == n) then some pp.2.name else none))

theorem extract_optimal_lookup (m : DayModel) (s : Solution) (n : String) :
    List.lookup n (extract m SolverStatus.optimal s)
      = if n ∈ m.tasks.map ResolvedTask.original_name
        then some (assignedNames m s n) else none := by
  have hpairs : extract m SolverStatus.optimal s
      = List.foldl
          (fun (d : List (String × List String))
              (e : (Nat × Person) × (Nat × ResolvedTask)) =>
            if s.x e.1.1 e.2.1 then updAppend d e.2.2.original_name e.1.2.name else d)
          (initDict (m.tasks.map ResolvedTask.original_name))
          (m.persons.enum.flatMap
            (fun pp => m.tasks.enum.map (fun tt => (pp, tt)))) := by
    simp only [extract, if_true]
    rw [foldl_flatMap]
    congr 1
    funext d pp
    rw [List.foldl_map]
  rw [hpairs]
  rw [lookup_foldl_condAppend
      (m.persons.enum.flatMap (fun pp => m.tasks.enum.map (fun tt => (pp, tt))))
      (fun e => s.x e.1.1 e.2.1) (fun e => e.2.2.original_name)
      (fun e => e.1.2.name)
      (initDict (m.tasks.map ResolvedTask.original_name)) n]
  rw [lookup_initDict]
  by_cases hmem : n ∈ m.tasks.map ResolvedTask.original_name
  · rw [if_pos hmem, if_pos hmem, Option.map_some']
    congr 1
    rw [List.nil_append, filterMap_flatMap]
    unfold assignedNames
    congr 1
    funext pp
    rw [List.filterMap_map]
    rfl
  · rw [if_neg hmem, if_neg hmem, Option.map_none']

theorem extract_fail_lookup (m : DayModel) (st : SolverStatus) (s : Solution)
    (hst : st ≠ SolverStatus.optimal) (n : String) :
    List.lookup n (extract m st s)
      = if n ∈ m.tasks.map ResolvedTask.original_name then some [] else none := by
  unfold extract
  rw [if_neg hst, lookup_initDict]

theorem resolveTasks_names (tl : List String) (db : List TaskDef) :
    (resolveTasks tl db).map ResolvedTask.original_name = tl := by
  unfold resolveTasks
  rw [List.map_map]
  exact List.map_id tl

theorem resolveTasks_info (tl : List String) (db : List TaskDef) (t : ResolvedTask)
    (h : t ∈ resolveTasks tl db) :
    t.info = match_task_to_database t.original_name db ∧ t.original_name ∈ tl := by
  rcases List.mem_map.1 h with ⟨nm, hnm, rfl⟩
  exact ⟨rfl, hnm⟩

theorem optimize_day_lookup_optimal (persons : List Person) (db : List TaskDef)
    (date_str : String) (task_list : List String)
    (solver : DayModel → SolverStatus × Solution)
    (hne : (availablePersons persons date_str).isEmpty = false)
    (hopt : (solver (dayModel persons db date_str task_list)).1 = SolverStatus.optimal)
    (n : String) :
    List.lookup n (optimize_day persons db date_str task_list solver)
      = if n ∈ task_list then
          some (assignedNames (dayModel persons db date_str task_list)
            (solver (dayModel persons db date_str task_list)).2 n)
        else none := by
  simp only [optimize_day]
  rw [show (dayModel persons db date_str task_list).persons.isEmpty
      = (availablePersons persons date_str).isEmpty from rfl, hne]
  simp only [Bool.false_eq_true, if_false]
  rw [hopt, extract_optimal_lookup,
    show (dayModel persons db date_str task_list).tasks
      = resolveTasks task_list db from rfl, resolveTasks_names]

theorem optimize_day_lookup_fail (persons : List Person) (db : List TaskDef)
    (date_str : String) (task_list : List String)
    (solver : DayModel → SolverStatus × Solution)
    (hfail : (solver (dayModel persons db date_str task_list)).1 ≠ SolverStatus.optimal)
    (n : String) :
    List.lookup n (optimize_day persons db date_str task_list solver)
      = if n ∈ task_list then some [] else none := by
  simp only [optimize_day]
  by_cases hemp : (dayModel persons db date_str task_list).persons.isEmpty
  · rw [if_pos hemp,
      show (dayModel persons db date_str task_list).tasks
        = resolveTasks task_list db from rfl, resolveTasks_names, lookup_initDict]
  · simp only [hemp, Bool.false_eq_true, if_false]
    rw [extract_fail_lookup _ _ _ hfail,
      show (dayModel persons db date_str task_list).tasks
        = resolveTasks task_list db from rfl, resolveTasks_names]

theorem optimize_day_lookup_empty (persons : List Person) (db : List TaskDef)
    (date_str : String) (task_list : List String)
    (solver : DayModel → SolverStatus × Solution)
    (hemp : (availablePersons persons date_str).isEmpty = true)
    (n : String) :
    List.lookup n (optimize_day persons db date_str task_list solver)
      = if n ∈ task_list then some [] else none := by
  simp only [optimize_day]
  rw [show (dayModel persons db date_str task_list).persons.isEmpty
      = (availablePersons persons date_str).isEmpty from rfl, hemp]
  rw [if_pos rfl,
    show (dayModel persons db date_str task_list).tasks
      = resolveTasks task_list db from rfl, resolveTasks_names, lookup_initDict]

/-- The all-zero valuation (every variable 0): always feasible. -/
def zeroSolution : Solution := ⟨fun _ _ => false, fun _ _ => false⟩

/-- The all-one valuation. -/
def fullSolution : Solution := ⟨fun _ _ => true, fun _ _ => true⟩

/-- A solver adapter that reports infeasibility. -/
def failSolver : DayModel → SolverStatus × Solution :=
  fun _ => (SolverStatus.infeasible, zeroSolution)

/-- A solver adapter that reports the all-zero assignment as optimal. -/
def zeroSolver : DayModel → SolverStatus × Solution :=
  fun _ => (SolverStatus.optimal, zeroSolution)

/-- A solver adapter that reports the all-one assignment as optimal. -/
def fullSolver : DayModel → SolverStatus × Solution :=
  fun _ => (SolverStatus.optimal, fullSolution)

theorem foldl_id {α β : Type} (l : List α) (f : β → α → β) (init : β)
    (h : ∀ d a, f d a = d) : l.foldl f init = init := by
  induction l generalizing init with
  | nil => rfl
  | cons a l ih => rw [List.foldl_cons, h, ih]

theorem extract_zero (m : DayModel) :
    extract m SolverStatus.optimal zeroSolution
      = initDict (m.tasks.map ResolvedTask.original_name) := by
  simp only [extract, if_true]
  apply foldl_id
  intro d pp
  apply foldl_id
  intro d2 tt
  rfl

theorem mem_assignedNames (m : DayModel) (s : Solution) (n w : String)
    (h : w ∈ assignedNames m s n) :
    ∃ pp ∈ m.persons.enum, ∃ tt ∈ m.tasks.enum,
      s.x pp.1 tt.1 = true ∧ tt.2.original_name = n ∧ pp.2.name = w := by
  unfold assignedNames at h
  rcases List.mem_flatMap.1 h with ⟨pp, hpp, hin⟩
  rcases List.mem_filterMap.1 hin with ⟨tt, htt, heq⟩
  by_cases hc : s.x pp.1 tt.1 && (tt.2.original_name == n)
  · rw [if_pos hc] at heq
    rw [Bool.and_eq_true] at hc
    obtain ⟨hx, hb⟩ := hc
    exact ⟨pp, hpp, tt, htt, hx, beq_iff_eq.1 hb, Option.some.inj heq⟩
  · rw [if_neg hc] at heq
    cases heq

theorem valsOf_eq_nil_iff {β : Type} (l : List (String × β)) (k : String) :
    valsOf l k = [] ↔ k ∉ l.map Prod.fst := by
  unfold valsOf
  rw [List.filterMap_eq_nil_iff]
  constructor
  · intro h hk
    rcases List.mem_map.1 hk with ⟨e, he, rfl⟩
    have := h e he
    simp [beq_self_eq_true] at this
  · intro hk e he
    have hne : e.1 ≠ k := fun h => hk (List.mem_map.2 ⟨e, he, h⟩)
    simp [beq_eq_false_iff_ne.2 hne]

theorem mem_keys_groupFold {β : Type} (l : List (String × β)) (k : String) :
    k ∈ (groupFold l).map Prod.fst ↔ k ∈ l.map Prod.fst := by
  rw [mem_keys_iff_lookup_isSome, lookup_groupFold]
  by_cases hv : valsOf l k = []
  · have hk := (valsOf_eq_nil_iff l k).1 hv
    simp [hv, hk]
  · have hb : (valsOf l k).isEmpty = false := by
      cases h : valsOf l k with
      | nil => exact absurd h hv
      | cons a t => simp
    have hk : k ∈ l.map Prod.fst := by
      by_contra hk
      exact hv ((valsOf_eq_nil_iff l k).2 hk)
    simp [hb, hk]

/-- A worker carrying the only-Monday-and-Tuesday availability rule. -/
def workerMonTue : Person :=
  { name := "W3", priority := 2, skill := 4, trouble := 1, personality := 3
    strength := 4, ship := 1, driving := 1, navigation := 0
    notes := "月火のみ可能" }

/-- A worker agreeing with `workerW1` on skill, strength, ship and
navigation but differing in every other field. -/
def workerW2 : Person :=
  { name := "W2", priority := 9, skill := 5, trouble := 5, personality := 1
    strength := 5, ship := 1, driving := 0, navigation := 1
    notes := "分析優先" }

/-- A registry row identical to the unregistered default for name `X`
except that its unregistered flag is off. -/
def taskX : TaskDef :=
  { task_id := 0, task_name := "X", area := "不明", required_workers := 1
    required_skill := 3, required_strength := 3, urgency := 3
    ship_work := 1, navigation_required := 1, duration := 1
    is_unregistered := false }

/-- C8: on a date where zero workers pass the availability filter, the Day
Optimizer maps every scheduled task name to the empty list (and every
entry of the returned mapping is empty) — a normally returned value, not
an error. -/
theorem spec_C8 (persons : List Person) (db : List TaskDef) (date_str : String)
    (task_list : List String) (solver : DayModel → SolverStatus × Solution)
    (hemp : availablePersons persons date_str = []) :
    (∀ n ∈ task_list,
      List.lookup n (optimize_day persons db date_str task_list solver) = some [])
    ∧ ∀ kv ∈ optimize_day persons db date_str task_list solver, kv.2 = [] := by
  have hempb : (availablePersons persons date_str).isEmpty = true := by
    rw [hemp]; rfl
  constructor
  · intro n hn
    rw [optimize_day_lookup_empty _ _ _ _ _ hempb, if_pos hn]
  · intro kv hkv
    have hres : optimize_day persons db date_str task_list solver
        = initDict ((dayModel persons db date_str task_list).tasks.map
            ResolvedTask.original_name) := by
      simp only [optimize_day]
      rw [show (dayModel persons db date_str task_list).persons.isEmpty
          = (availablePersons persons date_str).isEmpty from rfl, hempb, if_pos rfl]
    rw [hres] at hkv
    exact initDict_values _ kv hkv

/-- Witness for C8: the only worker is restricted to Monday and Tuesday
and 2025-04-02 is a Wednesday, so the returned mapping is all-empty. -/
theorem spec_C8_witness :
    availablePersons [workerMonTue] "2025-04-02" = []
    ∧ (∀ n ∈ ["採水"],
        List.lookup n (optimize_day [workerMonTue] [] "2025-04-02" ["採水"] failSolver)
          = some [])
    ∧ ∀ kv ∈ optimize_day [workerMonTue] [] "2025-04-02" ["採水"] failSolver,
        kv.2 = [] := by
  have h := spec_C8 [workerMonTue] [] "2025-04-02" ["採水"] failSolver (by decide)
  exact ⟨by decide, h.1, h.2⟩

/-- C9: the date-key set of the Schedule Optimizer's aggregate result is
exactly the set of distinct dates of the input schedule, whatever the
solver reports on each day. -/
theorem spec_C9 (persons : List Person) (db : List TaskDef)
    (rows : List (String × String)) (solver : DayModel → SolverStatus × Solution)
    (d : String) :
    d ∈ (optimize_schedule persons db rows solver).map Prod.fst
      ↔ d ∈ rows.map Prod.fst := by
  unfold optimize_schedule
  rw [List.map_map]
  rw [show (Prod.fst ∘ fun kv : String × List String =>
      (kv.1, optimize_day persons db kv.1 kv.2 solver)) = Prod.fst from rfl]
  exact mem_keys_groupFold rows d

/-- Witness for C9 at a concrete two-day schedule and a failing solver. -/
theorem spec_C9_witness :
    ("2025-04-01" ∈ (optimize_schedule [workerW1] []
        [("2025-04-01", "採水"), ("2025-04-02", "採泥"), ("2025-04-01", "採泥")]
        failSolver).map Prod.fst
      ↔ "2025-04-01" ∈ ["2025-04-01", "2025-04-02", "2025-04-01"])
    ∧ ("2025-04-03" ∈ (optimize_schedule [workerW1] []
        [("2025-04-01", "採水"), ("2025-04-02", "採泥"), ("2025-04-01", "採泥")]
        failSolver).map Prod.fst
      ↔ "2025-04-03" ∈ ["2025-04-01", "2025-04-02", "2025-04-01"]) :=
  ⟨spec_C9 [workerW1] [] _ failSolver "2025-04-01",
   spec_C9 [workerW1] [] _ failSolver "2025-04-03"⟩

/-- C1 counterexample: on solver infeasibility the Day Optimizer returns
the very same all-empty mapping as a successful all-zero assignment, and
the two aggregate results coincide as well — the failure is silent and
indistinguishable. -/
theorem spec_C1_counterexample :
    optimize_day [workerW1] [] "2025-04-01" ["採水"] failSolver
      = optimize_day [workerW1] [] "2025-04-01" ["採水"] zeroSolver
    ∧ optimize_day [workerW1] [] "2025-04-01" ["採水"] failSolver = [("採水", [])]
    ∧ optimize_schedule [workerW1] [] [("2025-04-01", "採水")] failSolver
        = optimize_schedule [workerW1] [] [("2025-04-01", "採水")] zeroSolver := by
  refine ⟨?_, ?_, ?_⟩ <;> decide

/-- C1 amended: whenever the solver status is not `optimal`, `optimize_day`
returns the all-empty mapping, equal to the result of a successful run
whose solution sets no variable; no failure marker exists in the result
type, so a failed date and an unstaffed date collapse. -/
theorem spec_C1_amended (persons : List Person) (db : List TaskDef)
    (date_str : String) (task_list : List String) (st : SolverStatus) (s : Solution)
    (hst : st ≠ SolverStatus.optimal) :
    optimize_day persons db date_str task_list (fun _ => (st, s))
      = optimize_day persons db date_str task_list (fun _ => (SolverStatus.optimal, zeroSolution))
    ∧ ∀ kv ∈ optimize_day persons db date_str task_list (fun _ => (st, s)), kv.2 = [] := by
  have hfail : optimize_day persons db date_str task_list (fun _ => (st, s))
      = initDict ((dayModel persons db date_str task_list).tasks.map
          ResolvedTask.original_name) := by
    simp only [optimize_day]
    by_cases hemp : (dayModel persons db date_str task_list).persons.isEmpty
    · rw [if_pos hemp]
    · rw [if_neg hemp]
      show extract _ st s = _
      unfold extract
      rw [if_neg hst]
  have hzero : optimize_day persons db date_str task_list
        (fun _ => (SolverStatus.optimal, zeroSolution))
      = initDict ((dayModel persons db date_str task_list).tasks.map
          ResolvedTask.original_name) := by
    simp only [optimize_day]
    by_cases hemp : (dayModel persons db date_str task_list).persons.isEmpty
    · rw [if_pos hemp]
    · rw [if_neg hemp]
      exact extract_zero _
  refine ⟨by rw [hfail, hzero], ?_⟩
  intro kv hkv
  rw [hfail] at hkv
  exact initDict_values _ kv hkv

/-- Witness for the amended C1 at a concrete day and infeasible status. -/
theorem spec_C1_amended_witness :
    optimize_day [workerW1] [] "2025-04-01" ["採水"]
        (fun _ => (SolverStatus.infeasible, zeroSolution))
      = optimize_day [workerW1] [] "2025-04-01" ["採水"]
        (fun _ => (SolverStatus.optimal, zeroSolution))
    ∧ ∀ kv ∈ optimize_day [workerW1] [] "2025-04-01" ["採水"]
        (fun _ => (SolverStatus.infeasible, zeroSolution)), kv.2 = [] :=
  spec_C1_amended [workerW1] [] "2025-04-01" ["採水"] SolverStatus.infeasible
    zeroSolution (by decide)

/-- C5 counterexample: two runs whose resolved tasks differ exactly in the
`is_unregistered` flag (name `X` against an empty registry versus a
registry row identical to the default but registered) produce identical
optimizer outputs: the mapping from display names to worker names carries
no flag, so the flag is not preserved into the output. -/
theorem spec_C5_counterexample :
    (match_task_to_database "X" []).is_unregistered = true
    ∧ (match_task_to_database "X" [taskX]).is_unregistered = false
    ∧ optimize_day [workerW1] [] "2025-04-01" ["X"] fullSolver
        = optimize_day [workerW1] [taskX] "2025-04-01" ["X"] fullSolver
    ∧ optimize_day [workerW1] [] "2025-04-01" ["X"] fullSolver = [("X", ["W1"])] := by
  refine ⟨?_, ?_, ?_, ?_⟩ <;> decide

/-- C5 amended: resolution failure is never surfaced as an error — the
unmatched entry resolves to the default with `is_unregistered = true` and
its display name always appears as a key of the day's result — but the
flag itself is dropped from the optimizer's output, which maps display
names to worker-name lists only. -/
theorem spec_C5_amended (name : String) (db : List TaskDef)
    (hex : db.find? (fun row => row.task_name == strTrim name) = none)
    (hpart : db.find? (fun row =>
        strIn (strTrim row.task_name) (strTrim name)
          || strIn (strTrim name) (strTrim row.task_name)) = none) :
    (match_task_to_database name db).is_unregistered = true
    ∧ ∀ (persons : List Person) (date_str : String) (task_list : List String)
        (solver : DayModel → SolverStatus × Solution), name ∈ task_list →
        ∃ v, List.lookup name (optimize_day persons db date_str task_list solver)
          = some v := by
  constructor
  · unfold match_task_to_database
    rw [hex, hpart]
    rfl
  · intro persons date_str task_list solver hn
    by_cases hemp : (availablePersons persons date_str).isEmpty
    · exact ⟨[], by rw [optimize_day_lookup_empty _ _ _ _ _ hemp, if_pos hn]⟩
    · have hne : (availablePersons persons date_str).isEmpty = false := by
        simpa using hemp
      by_cases hopt : (solver (dayModel persons db date_str task_list)).1
          = SolverStatus.optimal
      · exact ⟨_, by rw [optimize_day_lookup_optimal _ _ _ _ _ hne hopt, if_pos hn]⟩
      · exact ⟨[], by rw [optimize_day_lookup_fail _ _ _ _ _ hopt, if_pos hn]⟩

/-- Witness for the amended C5: name `X` against the empty registry. -/
theorem spec_C5_amended_witness :
    (match_task_to_database "X" []).is_unregistered = true
    ∧ ∃ v, List.lookup "X" (optimize_day [workerW1] [] "2025-04-01" ["X"] fullSolver)
        = some v := by
  have h := spec_C5_amended "X" [] rfl rfl
  exact ⟨h.1, h.2 [workerW1] "2025-04-01" ["X"] fullSolver (by decide)⟩

/-- C6: the Task Resolver trims the display name, returns the first exact
registry match when one exists (`List.find?` returns the first entry in
registry order), otherwise the first entry whose stripped name contains or
is contained in the cleaned display name, and otherwise the synthesized
default with workers 1, skill 3, strength 3, vessel grade 1, navigation
grade 1, duration 1 and the unregistered flag set. -/
theorem spec_C6 (name : String) (db : List TaskDef) :
    (∀ t, db.find? (fun row => row.task_name == strTrim name) = some t →
        match_task_to_database name db = t)
    ∧ (db.find? (fun row => row.task_name == strTrim name) = none →
        ∀ t, db.find? (fun row =>
            strIn (strTrim row.task_name) (strTrim name)
              || strIn (strTrim name) (strTrim row.task_name)) = some t →
        match_task_to_database name db = t)
    ∧ (db.find? (fun row => row.task_name == strTrim name) = none →
        db.find? (fun row =>
            strIn (strTrim row.task_name) (strTrim name)
              || strIn (strTrim name) (strTrim row.task_name)) = none →
        match_task_to_database name db = defaultUnregisteredTask (strTrim name))
    ∧ (defaultUnregisteredTask (strTrim name)).required_workers = 1
    ∧ (defaultUnregisteredTask (strTrim name)).required_skill = 3
    ∧ (defaultUnregisteredTask (strTrim name)).required_strength = 3
    ∧ (defaultUnregisteredTask (strTrim name)).ship_work = 1
    ∧ (defaultUnregisteredTask (strTrim name)).navigation_required = 1
    ∧ (defaultUnregisteredTask (strTrim name)).duration = 1
    ∧ (defaultUnregisteredTask (strTrim name)).is_unregistered = true := by
  refine ⟨?_, ?_, ?_, rfl, rfl, rfl, rfl, rfl, rfl, rfl⟩
  · intro t ht
    unfold match_task_to_database
    rw [ht]
  · intro hex t ht
    unfold match_task_to_database
    rw [hex, ht]
  · intro hex hpart
    unfold match_task_to_database
    rw [hex, hpart]

/-- Witness for C6: a padded display name resolves by substring match to
the registered row, and an unmatched name resolves to the default. -/
theorem spec_C6_witness :
    match_task_to_database " Xy" [taskX] = taskX
    ∧ match_task_to_database "Z" [taskX] = defaultUnregisteredTask "Z"
    ∧ (defaultUnregisteredTask "Z").required_workers = 1
    ∧ (defaultUnregisteredTask "Z").is_unregistered = true := by
  refine ⟨(spec_C6 " Xy" [taskX]).2.1 (by decide) taskX (by decide),
    (spec_C6 "Z" [taskX]).2.2.1 (by decide) (by decide),
    (spec_C6 "Z" [taskX]).2.2.2.1, (spec_C6 "Z" [taskX]).2.2.2.2.2.2.2.2.2⟩

/-- C10: the score reads only skill, strength, ship and navigation of the
worker and only the four requirement fields of the task; the notes-based
analysis-priority penalty enters the objective coefficient only through
`get_priority_penalty`, which is `-20` exactly when the marker occurs in
the notes. -/
theorem spec_C10 :
    (∀ (w1 w2 : Person) (t1 t2 : TaskDef),
      w1.skill = w2.skill → w1.strength = w2.strength → w1.ship = w2.ship →
      w1.navigation = w2.navigation →
      t1.required_skill = t2.required_skill →
      t1.required_strength = t2.required_strength →
      t1.ship_work = t2.ship_work →
      t1.navigation_required = t2.navigation_required →
      calculate_match_score w1 t1 = calculate_match_score w2 t2)
    ∧ (∀ (p : Person) (t : TaskDef),
        objectiveCoeff p t = calculate_match_score p t + get_priority_penalty p)
    ∧ (∀ p : Person,
        get_priority_penalty p = if strIn "分析優先" p.notes then -20 else 0) := by
  refine ⟨?_, fun p t => rfl, fun p => rfl⟩
  intro w1 w2 t1 t2 h1 h2 h3 h4 h5 h6 h7 h8
  unfold calculate_match_score
  rw [h1, h2, h3, h4, h5, h6, h7, h8]

/-- Witness for C10: `workerW2` differs from `workerW1` in name, priority,
trouble, personality, driving and notes, yet scores identically; the
penalty difference lives in `get_priority_penalty` alone. -/
theorem spec_C10_witness :
    calculate_match_score workerW1 taskT1 = calculate_match_score workerW2 taskT1
    ∧ objectiveCoeff workerW2 taskT1
        = calculate_match_score workerW2 taskT1 + get_priority_penalty workerW2
    ∧ get_priority_penalty workerW2
        = if strIn "分析優先" workerW2.notes then -20 else 0 :=
  ⟨spec_C10.1 workerW1 workerW2 taskT1 taskT1 rfl rfl rfl rfl rfl rfl rfl rfl,
   spec_C10.2.1 workerW2 taskT1, spec_C10.2.2 workerW2⟩

theorem mem_of_mem_enum {α : Type} {l : List α} {pp : Nat × α} (h : pp ∈ l.enum) :
    pp.2 ∈ l :=
  List.getElem?_mem (List.mem_enum_iff_getElem?.1 h)

/-- C7: the availability predicate is false exactly for a worker carrying
the only-Monday-and-Tuesday rule on a date whose weekday is neither Monday
nor Tuesday; a worker without the rule is available on every date; the
day's candidate pool is the availability-filtered worker list, and every
name in every returned assignment list is the name of a worker of that
filtered pool — an unavailable worker is excluded, not merely
penalized. -/
theorem spec_C7 :
    (∀ (p : Person) (d : String),
      is_person_available p d = false
        ↔ (strIn "月火のみ" p.notes = true ∧ pyWeekday d ≠ 0 ∧ pyWeekday d ≠ 1))
    ∧ (∀ (p : Person) (d : String), strIn "月火のみ" p.notes = false →
        is_person_available p d = true)
    ∧ (∀ (persons : List Person) (db : List TaskDef) (d : String)
        (tl : List String),
        (dayModel persons db d tl).persons
          = persons.filter (fun p => is_person_available p d))
    ∧ (∀ (persons : List Person) (db : List TaskDef) (d : String)
        (tl : List String) (solver : DayModel → SolverStatus × Solution)
        (n w : String),
        w ∈ resultValue (optimize_day persons db d tl solver) n →
        ∃ p ∈ persons, p.name = w ∧ is_person_available p d = true) := by
  refine ⟨?_, ?_, fun _ _ _ _ => rfl, ?_⟩
  · intro p d
    unfold is_person_available
    by_cases hr : strIn "月火のみ" p.notes
    · rw [if_pos hr]
      constructor
      · intro h
        rw [Bool.or_eq_false_iff] at h
        exact ⟨hr, by simpa using h.1, by simpa using h.2⟩
      · intro ⟨_, h0, h1⟩
        rw [Bool.or_eq_false_iff]
        exact ⟨by simpa using h0, by simpa using h1⟩
    · rw [if_neg hr]
      constructor
      · intro h
        cases h
      · intro ⟨h, _⟩
        exact absurd h (by simpa using hr)
  · intro p d h
    unfold is_person_available
    rw [h]
    rfl
  · intro persons db d tl solver n w hw
    unfold resultValue at hw
    by_cases hemp : (availablePersons persons d).isEmpty
    · rw [optimize_day_lookup_empty _ _ _ _ _ hemp] at hw
      by_cases hn : n ∈ tl
      · rw [if_pos hn] at hw
        simp at hw
      · rw [if_neg hn] at hw
        simp at hw
    · have hne : (availablePersons persons d).isEmpty = false := by simpa using hemp
      by_cases hopt : (solver (dayModel persons db d tl)).1 = SolverStatus.optimal
      · rw [optimize_day_lookup_optimal _ _ _ _ _ hne hopt] at hw
        by_cases hn : n ∈ tl
        · rw [if_pos hn] at hw
          simp only [Option.getD_some] at hw
          rcases mem_assignedNames _ _ _ _ hw with ⟨pp, hpp, tt, htt, hx, hon, hname⟩
          have hmem : pp.2 ∈ availablePersons persons d := mem_of_mem_enum hpp
          rcases List.mem_filter.1 hmem with ⟨hp, hav⟩
          exact ⟨pp.2, hp, hname, hav⟩
        · rw [if_neg hn] at hw
          simp at hw
      · rw [optimize_day_lookup_fail _ _ _ _ _ hopt] at hw
        by_cases hn : n ∈ tl
        · rw [if_pos hn] at hw
          simp at hw
        · rw [if_neg hn] at hw
          simp at hw

/-- Witness for C7: the Monday-and-Tuesday-only worker is unavailable on
Wednesday 2025-04-02, a worker without the rule is available, and at a
concrete optimal day every assigned name comes from the filtered pool. -/
theorem spec_C7_witness :
    (is_person_available workerMonTue "2025-04-02" = false
      ↔ (strIn "月火のみ" workerMonTue.notes = true
          ∧ pyWeekday "2025-04-02" ≠ 0 ∧ pyWeekday "2025-04-02" ≠ 1))
    ∧ is_person_available workerW1 "2025-04-02" = true
    ∧ ∃ p ∈ [workerW1], p.name = "W1" ∧ is_person_available p "2025-04-01" = true := by
  refine ⟨spec_C7.1 workerMonTue "2025-04-02",
    spec_C7.2.1 workerW1 "2025-04-02" (by decide), ?_⟩
  exact spec_C7.2.2.2 [workerW1] [] "2025-04-01" ["採水"] fullSolver "採水" "W1"
    (by decide)

theorem countP_le_one_of_unique {α : Type} (l : List α) (p : α → Bool) (a0 : α)
    (hl : l.Nodup) (h : ∀ a ∈ l, p a = true → a = a0) : l.countP p ≤ 1 := by
  induction l with
  | nil => simp
  | cons a l ih =>
    rw [List.countP_cons]
    rcases List.nodup_cons.1 hl with ⟨ha, hl'⟩
    by_cases hp : p a = true
    · have ha0 : a = a0 := h a (List.mem_cons_self a l) hp
      have hzero : l.countP p = 0 := by
        rw [List.countP_eq_zero]
        intro b hb hpb
        have hb0 : b = a0 := h b (List.mem_cons_of_mem a hb) hpb
        rw [hb0, ← ha0] at hb
        exact ha hb
      simp [hp, hzero]
    · have hp0 : p a = false := by simpa using hp
      simp only [hp0, Bool.false_eq_true, if_false, Nat.add_zero]
      exact ih hl' (fun b hb hpb => h b (List.mem_cons_of_mem a hb) hpb)

theorem enum_nodup {α : Type} (l : List α) : l.enum.Nodup :=
  (List.nodup_enum_map_fst l).of_map Prod.fst

theorem assignedNames_length_le (m : DayModel) (s : Solution)
    (hfeas : feasible m s) (n : String) (i0 : Nat) (t0 : ResolvedTask)
    (hmem : (i0, t0) ∈ m.tasks.enum)
    (huniq : ∀ tt ∈ m.tasks.enum, tt.2.original_name = n → tt.1 = i0) :
    (assignedNames m s n).length ≤ t0.info.required_workers := by
  unfold assignedNames
  rw [List.length_flatMap]
  have hinner : ∀ pp ∈ m.persons.enum,
      (List.length ∘ fun pp : Nat × Person =>
        m.tasks.enum.filterMap (fun tt =>
          if s.x pp.1 tt.1 && (tt.2.original_name == n) then some pp.2.name else none)) pp
        ≤ (fun pp : Nat × Person => if s.x pp.1 i0 then 1 else 0) pp := by
    intro pp _
    show (m.tasks.enum.filterMap (fun tt =>
        if s.x pp.1 tt.1 && (tt.2.original_name == n) then some pp.2.name else none)).length
      ≤ if s.x pp.1 i0 then 1 else 0
    rw [List.length_filterMap_eq_countP]
    by_cases hx : s.x pp.1 i0
    · rw [if_pos hx]
      apply countP_le_one_of_unique _ _ (i0, t0) (enum_nodup _)
      intro tt htt hp
      by_cases hcond : s.x pp.1 tt.1 && (tt.2.original_name == n)
      · rw [Bool.and_eq_true] at hcond
        have hi : tt.1 = i0 := huniq tt htt (beq_iff_eq.1 hcond.2)
        have : m.tasks[tt.1]? = some tt.2 := List.mem_enum_iff_getElem?.1 htt
        rw [hi] at this
        have ht0 : m.tasks[i0]? = some t0 := List.mem_enum_iff_getElem?.1 hmem
        have : tt.2 = t0 := by
          rw [this] at ht0
          exact Option.some.inj ht0
        calc tt = (tt.1, tt.2) := rfl
          _ = (i0, t0) := by rw [hi, this]
      · rw [if_neg hcond] at hp
        simp at hp
    · rw [if_neg hx]
      rw [Nat.le_zero, List.countP_eq_zero]
      intro tt htt hp
      by_cases hcond : s.x pp.1 tt.1 && (tt.2.original_name == n)
      · rw [Bool.and_eq_true] at hcond
        have hi : tt.1 = i0 := huniq tt htt (beq_iff_eq.1 hcond.2)
        rw [hi] at hcond
        exact hx hcond.1
      · rw [if_neg hcond] at hp
        simp at hp
  calc (m.persons.enum.map (List.length ∘ fun pp : Nat × Person =>
        m.tasks.enum.filterMap (fun tt =>
          if s.x pp.1 tt.1 && (tt.2.original_name == n) then some pp.2.name else none))).sum
      ≤ (m.persons.enum.map (fun pp : Nat × Person => if s.x pp.1 i0 then 1 else 0)).sum :=
        List.sum_le_sum hinner
    _ = ((List.range m.persons.length).map (fun p => if s.x p i0 then 1 else 0)).sum := by
        rw [show (fun pp : Nat × Person => if s.x pp.1 i0 then 1 else 0)
            = (fun p : Nat => if s.x p i0 then 1 else 0) ∘ Prod.fst from rfl]
        rw [← List.map_map, List.enum_eq_enumFrom, List.enumFrom_map_fst,
          ← List.range_eq_range']
    _ ≤ t0.info.required_workers := hfeas.2.2 (i0, t0) hmem

/-- C3 counterexample: scheduling the same display name twice on one day
collapses both slots into one result key; an optimal-and-feasible solver
answer assigns the single worker to both slots, so the list under the
name holds 2 workers while the task's `required_workers` is 1. -/
theorem spec_C3_counterexample :
    feasible (dayModel [workerW1] [] "2025-04-01" ["採水", "採水"]) fullSolution
    ∧ (match_task_to_database "採水" []).required_workers = 1
    ∧ optimize_day [workerW1] [] "2025-04-01" ["採水", "採水"] fullSolver
        = [("採水", ["W1", "W1"])]
    ∧ ¬((resultValue (optimize_day [workerW1] [] "2025-04-01" ["採水", "採水"]
          fullSolver) "採水").length
        ≤ (match_task_to_database "採水" []).required_workers) := by
  refine ⟨by decide, by decide, by decide, by decide⟩

/-- C3 amended: provided the display names scheduled on the date are
pairwise distinct, and the solver honours the model's constraints whenever
it reports an optimal status, the worker list returned under each display
name has length at most the resolved task's `required_workers`; the bound
is an upper bound only (failed or empty days return empty lists). -/
theorem spec_C3_amended (persons : List Person) (db : List TaskDef)
    (date_str : String) (task_list : List String)
    (solver : DayModel → SolverStatus × Solution)
    (hnodup : task_list.Nodup)
    (hcontract : (solver (dayModel persons db date_str task_list)).1
        = SolverStatus.optimal →
      feasible (dayModel persons db date_str task_list)
        (solver (dayModel persons db date_str task_list)).2)
    (n : String) :
    (resultValue (optimize_day persons db date_str task_list solver) n).length
      ≤ (match_task_to_database n db).required_workers := by
  unfold resultValue
  by_cases hemp : (availablePersons persons date_str).isEmpty
  · rw [optimize_day_lookup_empty _ _ _ _ _ hemp]
    by_cases hn : n ∈ task_list
    · rw [if_pos hn]; simp
    · rw [if_neg hn]; simp
  · have hne : (availablePersons persons date_str).isEmpty = false := by
      simpa using hemp
    by_cases hopt : (solver (dayModel persons db date_str task_list)).1
        = SolverStatus.optimal
    · rw [optimize_day_lookup_optimal _ _ _ _ _ hne hopt]
      by_cases hn : n ∈ task_list
      · rw [if_pos hn]
        simp only [Option.getD_some]
        rcases List.mem_iff_getElem?.1 hn with ⟨i0, hi0⟩
        have hfeas := hcontract hopt
        have htask : (dayModel persons db date_str task_list).tasks[i0]?
            = some ⟨match_task_to_database n db, n⟩ := by
          show (resolveTasks task_list db)[i0]? = _
          unfold resolveTasks
          rw [List.getElem?_map, hi0]
          rfl
        have hmem : (i0, (⟨match_task_to_database n db, n⟩ : ResolvedTask))
            ∈ (dayModel persons db date_str task_list).tasks.enum :=
          List.mem_enum_iff_getElem?.2 htask
        have huniq : ∀ tt ∈ (dayModel persons db date_str task_list).tasks.enum,
            tt.2.original_name = n → tt.1 = i0 := by
          intro tt htt hon
          have h1 : (dayModel persons db date_str task_list).tasks[tt.1]? = some tt.2 :=
            List.mem_enum_iff_getElem?.1 htt
          have h2 : (resolveTasks task_list db)[tt.1]? = some tt.2 := h1
          unfold resolveTasks at h2
          rw [List.getElem?_map] at h2
          rcases Option.map_eq_some'.1 h2 with ⟨nm, hnm, hf⟩
          have : nm = n := by
            have hcon := congrArg ResolvedTask.original_name hf
            simp only at hcon
            rw [hcon, hon]
          rw [this] at hnm
          have hlt : tt.1 < task_list.length := by
            rcases List.getElem?_eq_some.1 hnm with ⟨h, _⟩
            exact h
          exact List.getElem?_inj hlt hnodup (hnm.trans hi0.symm)
        exact assignedNames_length_le _ _ hfeas n i0 _ hmem huniq
      · rw [if_neg hn]; simp
    · rw [optimize_day_lookup_fail _ _ _ _ _ hopt]
      by_cases hn : n ∈ task_list
      · rw [if_pos hn]; simp
      · rw [if_neg hn]; simp

/-- Witness for the amended C3 at a concrete single-task day and a solver
whose optimal answer is feasible for the built model. -/
theorem spec_C3_amended_witness :
    (resultValue (optimize_day [workerW1] [] "2025-04-01" ["採水"] fullSolver)
        "採水").length
      ≤ (match_task_to_database "採水" []).required_workers :=
  spec_C3_amended [workerW1] [] "2025-04-01" ["採水"] fullSolver (by decide)
    (fun _ => by decide) "採水"

/-- C4: with pairwise-distinct worker names (names identify workers) and a
solver honouring the model's constraints on optimal answers, any one
worker appears only under display names whose resolved tasks share a
single area: the one-area-per-day and linking constraints force the areas
of any two tasks the worker appears in to coincide. -/
theorem spec_C4 (persons : List Person) (db : List TaskDef) (date_str : String)
    (task_list : List String) (solver : DayModel → SolverStatus × Solution)
    (hnames : (persons.map Person.name).Nodup)
    (hcontract : (solver (dayModel persons db date_str task_list)).1
        = SolverStatus.optimal →
      feasible (dayModel persons db date_str task_list)
        (solver (dayModel persons db date_str task_list)).2)
    (w n1 n2 : String)
    (h1 : w ∈ resultValue (optimize_day persons db date_str task_list solver) n1)
    (h2 : w ∈ resultValue (optimize_day persons db date_str task_list solver) n2) :
    (match_task_to_database n1 db).area = (match_task_to_database n2 db).area := by
  unfold resultValue at h1 h2
  by_cases hemp : (availablePersons persons date_str).isEmpty
  · rw [optimize_day_lookup_empty _ _ _ _ _ hemp] at h1
    by_cases hn : n1 ∈ task_list
    · rw [if_pos hn] at h1; simp at h1
    · rw [if_neg hn] at h1; simp at h1
  · have hne : (availablePersons persons date_str).isEmpty = false := by
      simpa using hemp
    by_cases hopt : (solver (dayModel persons db date_str task_list)).1
        = SolverStatus.optimal
    · have hfeas := hcontract hopt
      rw [optimize_day_lookup_optimal _ _ _ _ _ hne hopt] at h1 h2
      by_cases hn1 : n1 ∈ task_list
      case neg => rw [if_neg hn1] at h1; simp at h1
      by_cases hn2 : n2 ∈ task_list
      case neg => rw [if_neg hn2] at h2; simp at h2
      rw [if_pos hn1] at h1
      rw [if_pos hn2] at h2
      simp only [Option.getD_some] at h1 h2
      rcases mem_assignedNames _ _ _ _ h1 with ⟨pp1, hpp1, tt1, htt1, hx1, hon1, hname1⟩
      rcases mem_assignedNames _ _ _ _ h2 with ⟨pp2, hpp2, tt2, htt2, hx2, hon2, hname2⟩
      set m := dayModel persons db date_str task_list with hm
      set sol := (solver (dayModel persons db date_str task_list)).2 with hsol
      -- the two person entries coincide since names are unique in the pool
      have havail : ((availablePersons persons date_str).map Person.name).Nodup :=
        hnames.sublist ((List.filter_sublist persons).map Person.name)
      have hg1 : m.persons[pp1.1]? = some pp1.2 := List.mem_enum_iff_getElem?.1 hpp1
      have hg2 : m.persons[pp2.1]? = some pp2.2 := List.mem_enum_iff_getElem?.1 hpp2
      have hw1 : (m.persons.map Person.name)[pp1.1]? = some w := by
        rw [List.getElem?_map, hg1, Option.map_some', hname1]
      have hw2 : (m.persons.map Person.name)[pp2.1]? = some w := by
        rw [List.getElem?_map, hg2, Option.map_some', hname2]
      have hlt1 : pp1.1 < (m.persons.map Person.name).length := by
        rcases List.getElem?_eq_some.1 hw1 with ⟨h, _⟩
        exact h
      have hidx : pp1.1 = pp2.1 :=
        List.getElem?_inj hlt1 havail (hw1.trans hw2.symm)
      have hplt : pp1.1 < m.persons.length := by
        simpa using hlt1
      -- linking forces the worker's area variable for both task areas
      rcases groupAreas_covers m.tasks tt1 htt1 with ⟨l1, hl1mem, hl1t⟩
      rcases groupAreas_covers m.tasks tt2 htt2 with ⟨l2, hl2mem, hl2t⟩
      have hx2a : sol.x pp1.1 tt2.1 = true := by
        rw [hidx]
        exact hx2
      have hlink1 := hfeas.2.1 pp1.1 hplt (tt1.2.info.area, l1) hl1mem tt1.1 hl1t
      have hlink2 := hfeas.2.1 pp1.1 hplt (tt2.2.info.area, l2) hl2mem tt2.1 hl2t
      rw [hx1] at hlink1
      rw [hx2a] at hlink2
      have hy1 : sol.y pp1.1 tt1.2.info.area = true := by
        by_contra hy
        have hyb : sol.y pp1.1 tt1.2.info.area = false := by simpa using hy
        simp [hyb] at hlink1
      have hy2 : sol.y pp1.1 tt2.2.info.area = true := by
        by_contra hy
        have hyb : sol.y pp1.1 tt2.2.info.area = false := by simpa using hy
        simp [hyb] at hlink2
      -- one-area-per-day: the two areas must be equal
      have harea : tt1.2.info.area = tt2.2.info.area := by
        by_contra hneq
        have hpair : ((tt1.2.info.area, l1) : String × List Nat)
            ≠ (tt2.2.info.area, l2) := by
          intro h
          exact hneq (congrArg Prod.fst h)
        have hsum := two_mem_map_sum_le m.areaTasks
          (fun kv => if sol.y pp1.1 kv.1 then (1 : Nat) else 0)
          _ _ hl1mem hl2mem hpair
        simp only [hy1, hy2, if_pos] at hsum
        have hone := hfeas.1 pp1.1 hplt
        omega
      -- translate the slot areas back to the resolved task areas
      have hi1 := (resolveTasks_info task_list db tt1.2 (mem_of_mem_enum htt1)).1
      have hi2 := (resolveTasks_info task_list db tt2.2 (mem_of_mem_enum htt2)).1
      rw [hon1] at hi1
      rw [hon2] at hi2
      rw [← hi1, ← hi2]
      exact harea
    · rw [optimize_day_lookup_fail _ _ _ _ _ hopt] at h1
      by_cases hn : n1 ∈ task_list
      · rw [if_pos hn] at h1; simp at h1
      · rw [if_neg hn] at h1; simp at h1

/-- Witness for C4 at a concrete day: the single worker appears under the
one scheduled name, and the two areas coincide. -/
theorem spec_C4_witness :
    (match_task_to_database "採水" []).area = (match_task_to_database "採水" []).area :=
  spec_C4 [workerW1] [] "2025-04-01" ["採水"] fullSolver (by decide)
    (fun _ => by decide) "W1" "採水" "採水" (by decide) (by decide)

/-- The duplicated-name day model of the C3 analysis. -/
def dupDayModel : DayModel := dayModel [workerW1] [] "2025-04-01" ["採水", "採水"]

/-- Any solver answer that is feasible and objective-maximal for the
duplicated-name model assigns the single worker to both slots: the silent
double assignment is not an artifact of a badly behaved adapter but the
unique optimal answer. -/
theorem dupDayModel_optimal_assigns_both (s : Solution)
    (_hfeas : feasible dupDayModel s)
    (hopt : ∀ s', feasible dupDayModel s' → objective dupDayModel s' ≤ objective dupDayModel s) :
    s.x 0 0 = true ∧ s.x 0 1 = true := by
  have h132 : (132 : Int) ≤ objective dupDayModel s := by
    have hfull : objective dupDayModel fullSolution = 132 := by decide
    have := hopt fullSolution (by decide)
    rw [hfull] at this
    exact this
  have hform : objective dupDayModel s
      = ((if s.x 0 0 then (66 : Int) else 0) + ((if s.x 0 1 then (66 : Int) else 0) + 0)) + 0 := rfl
  cases hx0 : s.x 0 0 <;> cases hx1 : s.x 0 1 <;>
    rw [hform, hx0, hx1] at h132 <;> simp_all
